import Mathlib

/-!
Shallow embedding of the core of a centralized append-only ledger
("blockchain") written in Go.  Bytes are modelled as `Nat` values below 256,
byte buffers as `List Nat`, machine integers as `Nat`/`Int` with explicit
`% 2 ^ w` at the points where the Go code casts, and fallible operations
return `Except`/`Option` or pair the result with an optional error, mirroring
Go's `(value, error)` convention.  File systems are association lists from
file names to byte lists.  Mutation is modelled by explicit state passing.
-/

set_option maxRecDepth 1000000

namespace Distros

/-! ## Byte-level utilities (package `communication`, `encoding/binary`) -/

/-- Little-endian encoding of `n` into exactly `k` bytes, as produced by
`binary.LittleEndian.PutUint16/32/64` (higher bytes are discarded, matching
the fixed-width Go integer being written). -/
def toLE (k n : Nat) : List Nat :=
  (List.range k).map (fun i => n / 256 ^ i % 256)

/-- Little-endian decoding of a byte list, as done by
`binary.LittleEndian.Uint16/32/64` on a buffer of the matching size. -/
def fromLE (l : List Nat) : Nat :=
  l.foldr (fun b acc => acc * 256 + b) 0

/-- Reinterpret an unsigned 64-bit value as Go `int64` (two's complement). -/
def i64 (u : Nat) : Int :=
  if u < 2 ^ 63 then (u : Int) else (u : Int) - 2 ^ 64

/-- The `uint64` cast of a Go `int64` value, as in `uint64(timestamp)`. -/
def u64 (t : Int) : Nat :=
  (t % (2 ^ 64 : Int)).toNat

/-- Digit-collecting worker for `beBytes`; the fuel only bounds the
recursion depth and any fuel of at least the digit count gives the same
result. -/
def beBytesAux : Nat → Nat → List Nat
  | 0, _ => []
  | fuel + 1, n => if n = 0 then [] else beBytesAux fuel (n / 256) ++ [n % 256]

/-- Minimal big-endian byte representation of a natural number, as returned
by `math/big.Int.Bytes` (the empty list for zero). -/
def beBytes (n : Nat) : List Nat := beBytesAux n n

/-- Big-endian value of a byte list, as computed by `math/big.Int.SetBytes`. -/
def beToNat (l : List Nat) : Nat :=
  l.foldl (fun acc b => acc * 256 + b) 0

/-- Go's `copy` of a source slice into a fresh zero-initialized 32-byte
array: the first 32 source bytes, zero-padded on the right when the source
is shorter than 32 bytes. -/
def toArr32 (src : List Nat) : List Nat :=
  src.take 32 ++ List.replicate (32 - src.length) 0

/-- Reading `n` bytes into a fresh zero-filled buffer from a stream that may
be shorter than `n`: `os.File.Read` fills what is available and leaves the
rest of the buffer zeroed. -/
def padTake (n : Nat) (s : List Nat) : List Nat :=
  s.take n ++ List.replicate (n - s.length) 0

theorem toLE_length (k n : Nat) : (toLE k n).length = k := by
  simp [toLE]

theorem padTake_of_le (n : Nat) (s : List Nat) (h : n ≤ s.length) :
    padTake n s = s.take n := by
  simp [padTake, Nat.sub_eq_zero_of_le h]

theorem toArr32_of_length (src : List Nat) (h : src.length = 32) :
    toArr32 src = src := by
  have h32 : src.length ≤ 32 := by omega
  simp [toArr32, h, List.take_of_length_le h32]

/-! ## Package `big32`: the `Big32` 256-bit big-endian integer -/

/-- The `Big32` type: a 32-byte unsigned big-endian integer
(`type Big32 struct { Bytes [32]byte }`). -/
structure Big32 where
  bytes : List Nat
deriving DecidableEq, Repr

namespace Big32

/-- The `Zero` constant: 32 zero bytes. -/
def zero : Big32 := ⟨List.replicate 32 0⟩

/-- The `One` constant, produced in `init` via `FromBig(big.NewInt(1))`. -/
def one : Big32 := ⟨List.replicate 31 0 ++ [1]⟩

/-- `FromSlice` copies the first 32 bytes of the source into a fresh value
(`copy(b.Bytes[:], source[:32])`; every call site passes at least 32 bytes). -/
def fromSlice (source : List Nat) : Big32 := ⟨source.take 32⟩

/-- `FromBytes` copies a 32-byte array. -/
def fromBytes (source : List Nat) : Big32 := ⟨toArr32 source⟩

/-- `FromBig` converts an arbitrary-precision integer back to `Big32`.  The Go
code copies the minimal big-endian bytes `bbytes` into
`buffer[32-len(bbytes):32]`; when the value needs more than 32 bytes the
lower slice bound `32 - len(bbytes)` is negative and the Go runtime panics
with a slice-bounds error, modelled here by `none`. -/
def fromBig (b : Int) : Option Big32 :=
  if b = 0 then some zero
  else
    let bbytes := beBytes b.natAbs
    if bbytes.length > 32 then none
    else some ⟨List.replicate (32 - bbytes.length) 0 ++ bbytes⟩

/-- `ToBig`: the value of the 32 bytes read in big-endian order. -/
def toBig (b : Big32) : Nat := beToNat b.bytes

/-- `Equals` compares the 32 bytes pointwise (`b.Bytes[i] != other.Bytes[i]`;
the arrays are always 32 bytes long, modelled by indexing with default 0). -/
def equals (b other : Big32) : Bool :=
  (List.range 32).all (fun i => b.bytes.getD i 0 == other.bytes.getD i 0)

/-- `IsZero` checks the 32 bytes one by one. -/
def isZero (b : Big32) : Bool :=
  (List.range 32).all (fun i => b.bytes.getD i 0 == 0)

/-- `IsOne` delegates to `Equals` with the `One` constant. -/
def isOne (b : Big32) : Bool := equals b one

end Big32

/-! ## SHA-256 (`crypto/sha256.Sum256`)

An executable model of the FIPS 180-4 SHA-256 digest over byte lists, used
by the block codec when the block buffer is dirty.  Words are naturals with
explicit reduction modulo `2 ^ 32`.  None of the theorems below depends on
the internals of this function; it is the standard-library hash the Go code
delegates to. -/

/-- Reduce a word modulo `2 ^ 32`. -/
def w32 (n : Nat) : Nat := n % 4294967296

/-- Right rotation of a 32-bit word by `n` places. -/
def rotr (x n : Nat) : Nat := x / 2 ^ n + x % 2 ^ n * 2 ^ (32 - n)

/-- The SHA-256 `Ch` function. -/
def shaCh (x y z : Nat) : Nat := (x &&& y) ^^^ ((x ^^^ 4294967295) &&& z)

/-- The SHA-256 `Maj` function. -/
def shaMaj (x y z : Nat) : Nat := (x &&& y) ^^^ (x &&& z) ^^^ (y &&& z)

/-- The SHA-256 big sigma-0 function. -/
def bsig0 (x : Nat) : Nat := rotr x 2 ^^^ rotr x 13 ^^^ rotr x 22

/-- The SHA-256 big sigma-1 function. -/
def bsig1 (x : Nat) : Nat := rotr x 6 ^^^ rotr x 11 ^^^ rotr x 25

/-- The SHA-256 small sigma-0 function. -/
def ssig0 (x : Nat) : Nat := rotr x 7 ^^^ rotr x 18 ^^^ x / 2 ^ 3

/-- The SHA-256 small sigma-1 function. -/
def ssig1 (x : Nat) : Nat := rotr x 17 ^^^ rotr x 19 ^^^ x / 2 ^ 10

/-- The 64 SHA-256 round constants of FIPS 180-4, as decimal naturals. -/
def shaK : List Nat :=
  [1116352408, 1899447441, 3049323471, 3921009573, 961987163, 1508970993,
   2453635748, 2870763221, 3624381080, 310598401, 607225278, 1426881987,
   1925078388, 2162078206, 2614888103, 3248222580, 3835390401, 4022224774,
   264347078, 604807628, 770255983, 1249150122, 1555081692, 1996064986,
   2554220882, 2821834349, 2952996808, 3210313671, 3336571891, 3584528711,
   113926993, 338241895, 666307205, 773529912, 1294757372, 1396182291,
   1695183700, 1986661051, 2177026350, 2456956037, 2730485921, 2820302411,
   3259730800, 3345764771, 3516065817, 3600352804, 4094571909, 275423344,
   430227734, 506948616, 659060556, 883997877, 958139571, 1322822218,
   1537002063, 1747873779, 1955562222, 2024104815, 2227730452, 2361852424,
   2428436474, 2756734187, 3204031479, 3329325298]

/-- The initial SHA-256 hash state of FIPS 180-4, as decimal naturals. -/
def shaH0 : List Nat :=
  [1779033703, 3144134277, 1013904242, 2773480762,
   1359893119, 2600822924, 528734635, 1541459225]

/-- Group bytes into big-endian 32-bit words. -/
def beWords : List Nat → List Nat
  | b0 :: b1 :: b2 :: b3 :: rest =>
      (((b0 * 256 + b1) * 256 + b2) * 256 + b3) :: beWords rest
  | _ => []

/-- Extend the 16-word message schedule by `k` additional words. -/
def extendSchedule (w : List Nat) : Nat → List Nat
  | 0 => w
  | k + 1 =>
      let n := w.length
      extendSchedule
        (w ++ [w32 (w.getD (n - 16) 0 + ssig0 (w.getD (n - 15) 0) +
                    w.getD (n - 7) 0 + ssig1 (w.getD (n - 2) 0))]) k

/-- One SHA-256 compression round over the 8-word working state. -/
def shaRound (st : List Nat) (kw : Nat × Nat) : List Nat :=
  match st with
  | [a, b, c, d, e, f, g, h] =>
      let t1 := w32 (h + bsig1 e + shaCh e f g + kw.1 + kw.2)
      let t2 := w32 (bsig0 a + shaMaj a b c)
      [w32 (t1 + t2), a, b, c, w32 (d + t1), e, f, g]
  | other => other

/-- Process one 64-byte chunk, updating the 8-word hash state. -/
def shaChunk (hstate : List Nat) (chunk : List Nat) : List Nat :=
  let w := extendSchedule (beWords chunk) 48
  let final := (shaK.zip w).foldl shaRound hstate
  (hstate.zip final).map (fun p => w32 (p.1 + p.2))

/-- Fueled worker for `chunks64` (any fuel of at least the chunk count gives
the same result). -/
def chunks64Aux : Nat → List Nat → List (List Nat)
  | 0, _ => []
  | fuel + 1, l => if l = [] then [] else l.take 64 :: chunks64Aux fuel (l.drop 64)

/-- Split a byte list into 64-byte chunks. -/
def chunks64 (l : List Nat) : List (List Nat) := chunks64Aux l.length l

/-- FIPS padding: append `0x80`, zeros up to 56 mod 64, and the bit length
as an 8-byte big-endian integer. -/
def shaPad (msg : List Nat) : List Nat :=
  let padlen := (119 - msg.length % 64) % 64
  msg ++ [128] ++ List.replicate padlen 0 ++
    (List.range 8).reverse.map (fun i => msg.length * 8 / 256 ^ i % 256)

/-- The SHA-256 digest of a byte list, as 32 bytes. -/
def sha256 (msg : List Nat) : List Nat :=
  let final := (chunks64 (shaPad msg)).foldl shaChunk shaH0
  final.flatMap (fun w => [w / 2 ^ 24 % 256, w / 2 ^ 16 % 256, w / 2 ^ 8 % 256, w % 256])

/-- Decidable equality for `Except` results, for evaluating the model on
concrete inputs. -/
instance exceptDecEq {ε α : Type} [DecidableEq ε] [DecidableEq α] :
    DecidableEq (Except ε α) := fun a b =>
  match a, b with
  | .ok x, .ok y =>
      if h : x = y then .isTrue (by rw [h]) else .isFalse (by simp [h])
  | .ok _, .error _ => .isFalse (by simp)
  | .error _, .ok _ => .isFalse (by simp)
  | .error e, .error f =>
      if h : e = f then .isTrue (by rw [h]) else .isFalse (by simp [h])

/-! ## Go error values -/

/-- Error values returned (or panics raised) by the modelled Go functions. -/
inductive GoErr where
  /-- `io.EOF`, returned by `communication.Read` on a short stream. -/
  | eof : GoErr
  /-- An `errors.New` value with its message. -/
  | errNew : String → GoErr
  /-- The error from `os.OpenFile` on an absent file without `O_CREATE`. -/
  | enoent : String → GoErr
  /-- A Go runtime panic caused by an out-of-range slice bound. -/
  | panicSliceBounds : GoErr
deriving DecidableEq, Repr

/-! ## Package `blockchain`: the block codec

Header layout (from the `headerLength` / `headerOffset` maps):
`PreviousHash` at 0 (32 bytes), `Nonce` at 32 (32 bytes), `Timestamp` at 64
(8 bytes, little-endian), `EntryCount` at 72 (1 byte), `Difficulty` at 73
(32 bytes), entry data from offset 105. -/

/-- Go slicing `l[off : off+len]` (callers guarantee the bounds). -/
def listSlice (l : List Nat) (off len : Nat) : List Nat :=
  (l.drop off).take len

/-- The `Block` struct: the memoized 32-byte hash array, the header-plus-
entries buffer, and the dirty flag for the memoized hash. -/
structure Block where
  hash : List Nat
  buffer : List Nat
  bufferDirty : Bool
deriving DecidableEq, Repr

/-- The `Chunk` struct: a 16-bit length and the data bytes.  The linked-list
`next` pointer is modelled by using `List Chunk` for chunk sequences (the
empty sequence is the nil pointer). -/
structure Chunk where
  length : Nat
  data : List Nat
deriving DecidableEq, Repr

/-- `CreateChunk`: the length is `uint16(len(data))` and exactly that many
bytes are copied into the fresh data buffer. -/
def CreateChunk (data : List Nat) : Chunk :=
  ⟨data.length % 65536, data.take (data.length % 65536)⟩

/-- `CreateBlockFromBuffer` copies the hash into the 32-byte array and the
first `bufferLength` bytes into a fresh buffer; the result starts clean
(`bufferDirty = false`). -/
def CreateBlockFromBuffer (hash : Big32) (buffer : List Nat) (bufferLength : Nat) :
    Block :=
  { hash := toArr32 hash.bytes
    buffer := buffer.take bufferLength
    bufferDirty := false }

/-- `CreateBlock` builds a block buffer from a previous hash, a difficulty
and a chunk sequence, stamping the current time (passed explicitly as
`now`).  A nil (empty) chunk sequence is rejected; the entry counter is a
`uint8` and the nonce region starts zeroed.  The non-nil checks on the two
`Big32` pointers cannot fail in the model and are omitted. -/
def CreateBlock (previousHash difficulty : Big32) (entries : List Chunk)
    (now : Int) : Except GoErr Block :=
  if entries = [] then .error (.errNew ("entries cannot be nil"))
  else
    .ok
      { hash := List.replicate 32 0
        buffer :=
          toArr32 previousHash.bytes ++ List.replicate 32 0 ++
            toLE 8 (u64 now) ++ [entries.length % 256] ++
            toArr32 difficulty.bytes ++
            entries.flatMap (fun c => toLE 2 c.length ++ c.data.take c.length)
        bufferDirty := true }

namespace Block

/-- `PreviousHash` reads the 32 bytes at offset 0. -/
def previousHash (b : Block) : Big32 :=
  Big32.fromSlice (listSlice b.buffer 0 32)

/-- `Difficulty` reads the 32 bytes at offset 73. -/
def difficulty (b : Block) : Big32 :=
  Big32.fromSlice (listSlice b.buffer 73 32)

/-- `Timestamp` reads the 8 little-endian bytes at offset 64 as an `int64`. -/
def timestamp (b : Block) : Int :=
  i64 (fromLE (listSlice b.buffer 64 8))

/-- `EntryCount` reads the single byte at offset 72. -/
def entryCount (b : Block) : Nat :=
  b.buffer.getD 72 0

/-- `LenghtWithMetadata` (sic): 4 length bytes, 32 hash bytes, buffer. -/
def lengthWithMetadata (b : Block) : Nat :=
  4 + 32 + b.buffer.length

/-- The bytes `Hash` would return: the memoized hash when the buffer is
clean, otherwise the SHA-256 of the buffer. -/
def hashBytes (b : Block) : List Nat :=
  if b.bufferDirty then sha256 b.buffer else b.hash

/-- The state change performed by `Hash`: memoize the digest and clear the
dirty flag. -/
def settleHash (b : Block) : Block :=
  { b with hash := hashBytes b, bufferDirty := false }

/-- The `Big32` value returned by `Hash` (`FromBytes(&block.hash)`). -/
def hashBig (b : Block) : Big32 :=
  Big32.fromBytes (hashBytes b)

/-- `WriteWithMetadata` emits `uint32(len(buffer))` little-endian, then the
32-byte hash array (after `Hash` has settled it), then the buffer.  The
returned block reflects the memoization performed by the embedded `Hash`
call. -/
def writeWithMetadata (b : Block) : List Nat × Block :=
  let b2 := settleHash b
  (toLE 4 b.buffer.length ++ b2.hash ++ b2.buffer, b2)

/-- `BufferWithMetadata` returns the framed bytes. -/
def bufferWithMetadata (b : Block) : List Nat :=
  (writeWithMetadata b).1

end Block

/-- `ReadBlock` parses one framed block from a stream, returning the block
when one could be constructed, the error `communication.Read` reported (an
`io.EOF` mid-payload still yields a zero-padded block, as in the source),
and the unread remainder of the stream. -/
def ReadBlock (s : List Nat) : Option Block × Option GoErr × List Nat :=
  if s.length < 4 then (none, some .eof, [])
  else
    let blocklen := fromLE (s.take 4)
    let s1 := s.drop 4
    if s1.length < 32 then (none, some .eof, [])
    else
      let hash := s1.take 32
      let s2 := s1.drop 32
      if s2.length < blocklen then
        (some (CreateBlockFromBuffer (Big32.fromSlice hash) (padTake blocklen s2)
          blocklen), some .eof, [])
      else
        (some (CreateBlockFromBuffer (Big32.fromSlice hash) (s2.take blocklen)
          blocklen), none, s2.drop blocklen)

/-! ## Package `message`: the wire codec

Opcodes: `GetMiningInfo 0x00`, `GetMiningInfoResponse 0x01`,
`GetBlockByHash 0x02`, `GetBlockByHashResponse 0x03`,
`ReadBlocksInMinute 0x04`, `ReadBlocksInMinuteResponse 0x05`,
`WriteBlock 0x06`, `WriteBlockResponse 0x07`, `WriteChunk 0x08`,
`WriteChunkResponse 0x09`.

Every concrete message struct embeds `message{opcode, datalen, data}`;
`GetBlockByHashResponse` and `WriteBlock` additionally carry a `block`
pointer.  `Msg` models exactly those fields. -/

/-- A protocol message: the embedded `message` fields plus the optional
`block` pointer of the two block-carrying kinds. -/
structure Msg where
  opcode : Nat
  datalen : Nat
  data : List Nat
  blk : Option Block
deriving DecidableEq, Repr

/-- `Message.Write`: the 1-byte opcode, then — unless `datalen` is zero —
the data buffer (the write loop hands the whole remaining slice to the
writer, so all of `data` is written even when `datalen` understates it, as
happens for `WriteChunk`). -/
def msgWrite (m : Msg) : List Nat :=
  m.opcode % 256 :: (if m.datalen = 0 then [] else m.data)

/-- `CreateGetMiningInfoRequest` (the lookup `opcodes["GetMiningInfoRequest"]`
misses the map and yields the zero value 0, which happens to be the
`GetMiningInfo` opcode). -/
def CreateGetMiningInfoRequest : Msg := ⟨0, 0, [], none⟩

/-- `CreateGetMiningInfoResponse`: 32 bytes of previous hash then 32 bytes
of difficulty. -/
def CreateGetMiningInfoResponse (previousHash difficulty : Big32) : Msg :=
  ⟨1, 64, toArr32 previousHash.bytes ++ toArr32 difficulty.bytes, none⟩

/-- `CreateGetBlockByHashRequest`: the 32 hash bytes. -/
def CreateGetBlockByHashRequest (hash : Big32) : Msg :=
  ⟨2, 32, toArr32 hash.bytes, none⟩

/-- `CreateGetBlockByHashResponse`: a found byte and, when a block is given,
its framed bytes; the `block` field aliases the given block, which the
embedded `WriteWithMetadata` settles. -/
def CreateGetBlockByHashResponse (block : Option Block) : Msg :=
  match block with
  | some b => ⟨3, b.lengthWithMetadata + 1, 1 :: b.bufferWithMetadata, some b.settleHash⟩
  | none => ⟨3, 1, [0], none⟩

/-- `CreateReadBlocksInMinute`: the 8-byte little-endian timestamp. -/
def CreateReadBlocksInMinute (timestamp : Int) : Msg :=
  ⟨4, 8, toLE 8 (u64 timestamp), none⟩

/-- `CreateReadBlocksInMinuteResponse`: timestamp, 4-byte count, then the
framed blocks. -/
def CreateReadBlocksInMinuteResponse (timestamp : Int) (blocks : List Block) : Msg :=
  let data := toLE 8 (u64 timestamp) ++ toLE 4 blocks.length ++
    blocks.flatMap Block.bufferWithMetadata
  ⟨5, data.length, data, none⟩

/-- `CreateWriteBlock`: the framed block; the `block` field aliases the
given block, settled by the embedded `WriteWithMetadata`. -/
def CreateWriteBlock (b : Block) : Msg :=
  ⟨6, b.lengthWithMetadata, b.bufferWithMetadata, some b.settleHash⟩

/-- `CreateWriteBlockResponse`: accepted flag, new previous hash, new
difficulty. -/
def CreateWriteBlockResponse (accepted : Bool) (newPreviousHash newDifficulty : Big32) :
    Msg :=
  ⟨7, 65, (if accepted then 1 else 0) :: (toArr32 newPreviousHash.bytes ++
    toArr32 newDifficulty.bytes), none⟩

/-- `CreateWriteChunk`: `datalen` records only the chunk length, while the
data buffer holds the 2-byte length prefix followed by `datalen` bytes
copied from the source (zero-padded if the source is shorter). -/
def CreateWriteChunk (data : List Nat) (datalen : Nat) : Msg :=
  ⟨8, datalen, toLE 2 datalen ++ padTake datalen data, none⟩

/-- `CreateWriteChunkResponse`: the accepted byte. -/
def CreateWriteChunkResponse (accepted : Bool) : Msg :=
  ⟨9, 1, [if accepted then 1 else 0], none⟩

/-- `readCount`: read a fixed number of bytes as the message data. -/
def readCount (opcode : Nat) (s : List Nat) (n : Nat) : Except GoErr (Msg × List Nat) :=
  if s.length < n then .error .eof
  else .ok (⟨opcode, n, s.take n, none⟩, s.drop n)

/-- Read `count` framed blocks in sequence, failing on the first read error
(as the loops in the two `ReadBlocksInMinuteResponse`/`WriteBlock` handlers
do). -/
def readNBlocks : Nat → List Nat → Except GoErr (List Block × List Nat)
  | 0, s => .ok ([], s)
  | n + 1, s =>
      match ReadBlock s with
      | (_, some e, _) => .error e
      | (some b, none, rest) =>
          (fun p => (b :: p.1, p.2)) <$> readNBlocks n rest
      | (none, none, _) => .error .eof

/-- `handleGetMiningInfo`: a bare opcode, no data. -/
def handleGetMiningInfo (opcode : Nat) (s : List Nat) : Except GoErr (Msg × List Nat) :=
  .ok (⟨opcode, 0, [], none⟩, s)

/-- `handleGetBlockByHashResponse`: the found byte is read with its error
ignored (an empty stream leaves the zeroed buffer, hence found = 0); when
found, the framed block follows. -/
def handleGetBlockByHashResponse (opcode : Nat) (s : List Nat) :
    Except GoErr (Msg × List Nat) :=
  let found := s.headD 0
  let s1 := s.drop 1
  if found = 1 then
    match ReadBlock s1 with
    | (_, some e, _) => .error e
    | (some b, none, rest) =>
        .ok (⟨opcode, b.lengthWithMetadata + 1, 1 :: b.bufferWithMetadata, some b⟩, rest)
    | (none, none, _) => .error .eof
  else .ok (⟨opcode, 0, [], none⟩, s1)

/-- `handleReadBlocksInMinute` reads the 8 timestamp bytes — and never
assigns the `opcode` field of the freshly allocated request, which therefore
keeps the zero value 0 instead of 0x04. -/
def handleReadBlocksInMinute (opcode : Nat) (s : List Nat) :
    Except GoErr (Msg × List Nat) :=
  if s.length < 8 then .error .eof
  else .ok (⟨0, 8, s.take 8, none⟩, s.drop 8)

/-- `handleReadBlocksInMinuteResponse`: timestamp and count are read with
their errors ignored; the framed blocks are then read and re-serialized
into the data buffer. -/
def handleReadBlocksInMinuteResponse (opcode : Nat) (s : List Nat) :
    Except GoErr (Msg × List Nat) :=
  let ts := padTake 8 s
  let s1 := s.drop 8
  let countBytes := padTake 4 s1
  let s2 := s1.drop 4
  match readNBlocks (fromLE countBytes) s2 with
  | .error e => .error e
  | .ok (blocks, rest) =>
      let data := ts ++ countBytes ++ blocks.flatMap Block.bufferWithMetadata
      .ok (⟨opcode, data.length, data, none⟩, rest)

/-- `handleWriteBlock`: one framed block. -/
def handleWriteBlock (opcode : Nat) (s : List Nat) : Except GoErr (Msg × List Nat) :=
  match ReadBlock s with
  | (_, some e, _) => .error e
  | (some b, none, rest) =>
      .ok (⟨opcode, b.lengthWithMetadata, b.bufferWithMetadata, some b⟩, rest)
  | (none, none, _) => .error .eof

/-- `handleWriteChunk`: 2-byte length then that many data bytes. -/
def handleWriteChunk (opcode : Nat) (s : List Nat) : Except GoErr (Msg × List Nat) :=
  if s.length < 2 then .error .eof
  else
    let datalen := fromLE (s.take 2)
    let s1 := s.drop 2
    if s1.length < datalen then .error .eof
    else .ok (CreateWriteChunk (s1.take datalen) datalen, s1.drop datalen)

/-- `handleWriteChunkResponse`: the accepted byte. -/
def handleWriteChunkResponse (opcode : Nat) (s : List Nat) :
    Except GoErr (Msg × List Nat) :=
  if s.length < 1 then .error .eof
  else .ok (CreateWriteChunkResponse (s.headD 0 = 1), s.drop 1)

/-- `ReadMessage`: read the opcode byte and dispatch to the handler
registered for it; unknown opcodes fail. -/
def ReadMessage (s : List Nat) : Except GoErr (Msg × List Nat) :=
  match s with
  | [] => .error .eof
  | op :: rest =>
      match op with
      | 0 => handleGetMiningInfo 0 rest
      | 1 => readCount 1 rest 64
      | 2 => readCount 2 rest 32
      | 3 => handleGetBlockByHashResponse 3 rest
      | 4 => handleReadBlocksInMinute 4 rest
      | 5 => handleReadBlocksInMinuteResponse 5 rest
      | 6 => handleWriteBlock 6 rest
      | 7 => readCount 7 rest 65
      | 8 => handleWriteChunk 8 rest
      | 9 => handleWriteChunkResponse 9 rest
      | _ => .error (.errNew ("unexpected opcode"))

/-! ## File system model

The repository works on three disjoint name spaces (`BlockchainDir`,
`IndexDir` and the head file); all file names produced below are distinct
across them (`blockchain-…`, `index-…`, `head`), so a single flat
association list from names to contents models the store.  Files are opened
through the `synchro` helpers; per-path locking serializes access and is
invisible to this sequential model. -/

/-- The modelled file system: file names to contents. -/
def FS : Type := List (String × List Nat)

instance : DecidableEq FS := by
  unfold FS
  infer_instance

/-- Look up a file (the `os.Stat` / `os.OpenFile` existence check). -/
def fsGet : FS → String → Option (List Nat)
  | [], _ => none
  | (m, c) :: rest, n => if m = n then some c else fsGet rest n

/-- Open with `O_APPEND | O_WRONLY | O_CREATE` and write: append to the
existing content, or create the file. -/
def fsAppend : FS → String → List Nat → FS
  | [], n, b => [(n, b)]
  | (m, c) :: rest, n, b =>
      if m = n then (m, c ++ b) :: rest else (m, c) :: fsAppend rest n b

/-- Open with `O_WRONLY | O_CREATE` (no append, no truncate) and write from
offset 0: the new bytes overwrite the head of the existing content. -/
def fsWriteAt0 : FS → String → List Nat → FS
  | [], n, b => [(n, b)]
  | (m, c) :: rest, n, b =>
      if m = n then (m, b ++ c.drop b.length) :: rest else (m, c) :: fsWriteAt0 rest n b

/-! ## UTC calendar (Go `time.Time.Date`, `Hour`, `Minute`)

The repository buckets blocks by the (year, month, day, hour, minute) of a
UTC Unix-seconds timestamp, obtained from the Go standard library.  The
standard proleptic-Gregorian civil-from-days conversion below models
`time.Unix(t, 0).UTC()` followed by `Date()`/`Hour()`/`Minute()`; months are
their numeric values 1–12, as printed by `fmt.Sprintf("%d", month)`. -/

/-- Convert a count of days since 1970-01-01 to (year, month, day). -/
def civilFromDays (z0 : Int) : Int × Int × Int :=
  let z := z0 + 719468
  let era := Int.ediv z 146097
  let doe := z - era * 146097
  let yoe := Int.ediv (doe - Int.ediv doe 1460 + Int.ediv doe 36524 -
    Int.ediv doe 146096) 365
  let y := yoe + era * 400
  let doy := doe - (365 * yoe + Int.ediv yoe 4 - Int.ediv yoe 100)
  let mp := Int.ediv (5 * doy + 2) 153
  let d := doy - Int.ediv (153 * mp + 2) 5 + 1
  let m := mp + (if mp < 10 then 3 else -9)
  (y + (if m ≤ 2 then 1 else 0), m, d)

/-- The (year, month, day, hour, minute) UTC bucket of a Unix timestamp. -/
def minuteTuple (t : Int) : Int × Int × Int × Int × Int :=
  let secs := Int.emod t 86400
  let ymd := civilFromDays (Int.ediv t 86400)
  (ymd.1, ymd.2.1, ymd.2.2, Int.ediv secs 3600, Int.ediv (Int.emod secs 3600) 60)

/-- ASCII bytes of a file name (`[]byte(blockfile)`; the names produced here
are plain ASCII). -/
def strBytes (s : String) : List Nat :=
  s.data.map Char.toNat

/-- A string from file-name bytes (`string(filename)`). -/
def strOfBytes (l : List Nat) : String :=
  String.mk (l.map Char.ofNat)

/-! ## Package `repository`: the storage engine -/

/-- The mutable fields of `BlockRepository` together with the file store it
operates on (directory paths are fixed and folded into the file names). -/
structure Repo where
  previousBlockHash : Big32
  previousBlockDifficulty : Big32
  previousBlockTimestamp : Int
  fs : FS
deriving DecidableEq

/-- `getFilenameForTime`: `blockchain-YYYY-M-D-H-M` with unpadded `%d`
components of the UTC minute bucket. -/
def getFilenameForTime (t : Int) : String :=
  let b := minuteTuple t
  "blockchain-" ++ toString b.1 ++ "-" ++ toString b.2.1 ++ "-" ++
    toString b.2.2.1 ++ "-" ++ toString b.2.2.2.1 ++ "-" ++ toString b.2.2.2.2

/-- `getFilename`: the by-minute file for the block's timestamp. -/
def getFilename (b : Block) : String :=
  getFilenameForTime b.timestamp

/-- `getIndexPathForHash`: `index-NNN` where `NNN` is the decimal first byte
of the hash. -/
def getIndexPathForHash (hash : Big32) : String :=
  "index-" ++ toString (hash.bytes.headD 0)

/-- The head file name (`BlockchainHeadFilepath`). -/
def headPath : String := "head"

/-- `validateBlock`: previous-hash equality and timestamp monotonicity. -/
def validateBlock (repo : Repo) (b : Block) : Option GoErr :=
  if ¬ Big32.equals repo.previousBlockHash b.previousHash then
    some (.errNew ("the given block does not have the current previous hash"))
  else if repo.previousBlockTimestamp > b.timestamp then
    some (.errNew ("the given block is older than the last created block"))
  else none

/-- One index entry: a length byte (`32 + len(filename) + 8`, truncated to a
byte), the 32 hash bytes, the 8-byte little-endian position, and the file
name bytes. -/
def indexEntry (hashArr : List Nat) (fpos : Nat) (fname : String) : List Nat :=
  let blockfile := strBytes fname
  (32 + blockfile.length + 8) % 256 :: (hashArr ++ toLE 8 fpos ++ blockfile)

/-- `Save`: validate, append the framed block to its by-minute file, append
the index entry, obtain the new difficulty from the `computeDifficulty`
thunk (whose `FromBig` panic is modelled by `none`, raised after the body
and index writes), then write the 72-byte head file and update the
in-memory head.  Returns the updated repository and the error, if any. -/
def Save (repo : Repo) (b : Block) (newDifficulty : Option Big32) :
    Repo × Option GoErr :=
  match validateBlock repo b with
  | some e => (repo, some e)
  | none =>
      let wr := b.writeWithMetadata
      let b2 := wr.2
      let fname := getFilename b
      let fpos := ((fsGet repo.fs fname).getD []).length
      let fs1 := fsAppend repo.fs fname wr.1
      let fs2 := fsAppend fs1 (getIndexPathForHash b2.hashBig)
        (indexEntry (toArr32 b2.hash) fpos fname)
      match newDifficulty with
      | none => ({ repo with fs := fs2 }, some .panicSliceBounds)
      | some nd =>
          let head := toArr32 b2.hash ++ toArr32 nd.bytes ++ toLE 8 (u64 b2.timestamp)
          ({ previousBlockHash := b2.hashBig
             previousBlockDifficulty := b2.difficulty
             previousBlockTimestamp := b2.timestamp
             fs := fsWriteAt0 fs2 headPath head }, none)

/-- The index-scan loop of `GetOneWithHash`: read a length byte, then the
entry hash, position and file name (short reads leave the zeroed buffer
tails, and the file-name length is the byte difference
`entryLength - 32 - 8`, wrapping modulo 256); stop on the first hash match
or at end of file. -/
def scanIndexAux (target : Big32) : Nat → List Nat → Option (Nat × List Nat)
  | 0, _ => none
  | _, [] => none
  | fuel + 1, b0 :: rest =>
      let currentHash := padTake 32 rest
      let r1 := rest.drop 32
      let blockpos := fromLE (padTake 8 r1)
      let r2 := r1.drop 8
      let fnameLen := (b0 + 256 - 40) % 256
      if Big32.equals (Big32.fromSlice currentHash) target then
        some (blockpos, padTake fnameLen r2)
      else scanIndexAux target fuel (r2.drop fnameLen)

/-- Entry point of the index scan (each iteration consumes at least the
length byte, so fuel equal to the content length suffices). -/
def scanIndex (target : Big32) (s : List Nat) : Option (Nat × List Nat) :=
  scanIndexAux target s.length s

/-- `GetOneWithHash`: find the block file and position through the hash
index, then read one framed block there.  Both files are opened through
`HandleFileAtomically`, which passes no not-found callback, so an absent
file surfaces the `os.OpenFile` error.  When the scan finds no entry the
file name stays empty and `path.Join(BlockchainDir, "")` opens the
blockchain directory itself; the read from it fails, but `ReadBlock`'s
error is discarded (`block, _ = ReadBlock(file)`), so the result is a nil
block with no error. -/
def GetOneWithHash (repo : Repo) (hash : Big32) : Except GoErr (Option Block) :=
  let indexPath := getIndexPathForHash hash
  match fsGet repo.fs indexPath with
  | none => .error (.enoent indexPath)
  | some content =>
      match scanIndex hash content with
      | none => .ok none
      | some (pos, fnameBytes) =>
          let fname := strOfBytes fnameBytes
          match fsGet repo.fs fname with
          | none => .error (.enoent fname)
          | some bytes => .ok (ReadBlock (bytes.drop pos)).1

theorem ReadBlock_rest_lt {s rest : List Nat} {b : Block}
    (h : ReadBlock s = (some b, none, rest)) : rest.length < s.length := by
  unfold ReadBlock at h
  by_cases h4 : s.length < 4
  · simp [h4] at h
  · simp only [h4, if_false] at h
    by_cases h32 : s.length - 4 < 32
    · simp [List.length_drop, h32] at h
    · simp only [List.length_drop, h32, if_false] at h
      by_cases hml : s.length - 4 - 32 < fromLE (s.take 4)
      · simp [List.drop_drop, hml] at h
      · simp only [List.drop_drop, hml, if_false] at h
        have hr := congrArg (fun t => t.2.2) h
        simp only [] at hr
        rw [show rest = List.drop (4 + 32 + fromLE (List.take 4 s)) s from hr.symm]
        simp only [List.length_drop]
        omega

/-- The block-collecting loop of `GetBlocksFromMinute`: read framed blocks
until end of file, keep those whose timestamp falls in the requested
(year, month, day, hour, minute) bucket, stop silently at `io.EOF` and
propagate any other error. -/
def readLoopMinuteAux (bucket : Int × Int × Int × Int × Int) :
    Nat → List Nat → Except GoErr (List Block)
  | 0, _ => .ok []
  | fuel + 1, s =>
      match ReadBlock s with
      | (_, some e, _) => if e = .eof then .ok [] else .error e
      | (some b, none, rest) =>
          (fun bs => if minuteTuple b.timestamp = bucket then b :: bs else bs) <$>
            readLoopMinuteAux bucket fuel rest
      | (none, none, _) => .error .eof

/-- Entry point of the block-collecting loop (each successful `ReadBlock`
consumes at least the 36 framing bytes, so fuel above the stream length
suffices; the fuel-exhaustion branch is unreachable). -/
def readLoopMinute (bucket : Int × Int × Int × Int × Int) (s : List Nat) :
    Except GoErr (List Block) :=
  readLoopMinuteAux bucket (s.length + 1) s

/-- `GetBlocksFromMinute`: compute the by-minute file for the requested
timestamp; an absent file is handled by the not-found callback of
`HandleFileAtomicallyIfFound`, leaving the block list empty; otherwise read
the file's framed blocks and filter by minute bucket. -/
def GetBlocksFromMinute (repo : Repo) (t : Int) : Except GoErr (List Block) :=
  match fsGet repo.fs (getFilenameForTime t) with
  | none => .ok []
  | some bytes => readLoopMinute (minuteTuple t) bytes

/-! ## Package `domain` (ledger host): the `Blockchain` write path -/

/-- Modelled from the spec: `Block.IsHashValidForDifficulty` is declared in
the `blockchain` package but its definition is not among the provided
sources (only its callers in `Blockchain.WriteBlock` and the miner are).
Per the specification, a block is valid at difficulty `D` iff
`hash_as_u256 × D < 2^256`, the difficulty being the one recorded in the
block. -/
def isHashValidForDifficulty (b : Block) : Bool :=
  decide (Big32.toBig b.hashBig * Big32.toBig b.difficulty < 2 ^ 256)

/-- The `Blockchain` struct: the repository, the live difficulty, the wall
time of the last successful write, and the mined-block counter (0 at
boot). -/
structure Chain where
  repo : Repo
  currentDifficulty : Big32
  lastWrite : Int
  minedCount : Nat
deriving DecidableEq

/-- The `computeDifficulty` closure passed to `Save`.  `minedCount` is the
counter value at the time of the call (it is incremented only after a
successful save).  When `minedCount % 256 ≠ 0` the block's recorded
difficulty is returned unchanged (`number.Copy` copies the 32-byte value);
otherwise the new difficulty is
`⌊difficulty × (12 × 256) / Δs⌋` with `Δs = max(elapsed seconds, 1)`,
converted back through `FromBig` — whose slice-bounds panic for values
needing more than 32 bytes is modelled by `none`. -/
def computeDifficulty (minedCount : Nat) (blockDifficulty : Big32)
    (deltaSeconds : Int) : Option Big32 :=
  if minedCount % 256 ≠ 0 then some blockDifficulty
  else
    let ds := if deltaSeconds = 0 then 1 else deltaSeconds
    Big32.fromBig (Int.ediv ((Big32.toBig blockDifficulty : Int) * (12 * 256)) ds)

/-- `Blockchain.WriteBlock`: check the difficulty against the live value and
the hash against the recorded difficulty, then delegate to `Save` with the
`computeDifficulty` thunk; on success adopt the new difficulty, record the
write time and bump the mined counter.  `writeTime` is the sampled wall
clock (`time.Now().UTC()`), passed explicitly. -/
def WriteBlock (st : Chain) (b : Block) (writeTime : Int) : Chain × Option GoErr :=
  if ¬ Big32.equals b.difficulty st.currentDifficulty then
    (st, some (.errNew ("unexpected difficulty")))
  else if ¬ isHashValidForDifficulty b then
    (st, some (.errNew ("unexpected hash value for the given difficulty")))
  else
    let nd := computeDifficulty st.minedCount b.difficulty (writeTime - st.lastWrite)
    match Save st.repo b nd with
    | (repo2, some e) => ({ st with repo := repo2 }, some e)
    | (repo2, none) =>
        ({ repo := repo2
           -- A successful save implies the thunk produced a value, so the
           -- default branch of getD is never taken.
           currentDifficulty := nd.getD st.currentDifficulty
           lastWrite := writeTime
           minedCount := st.minedCount + 1 }, none)

/-! ## Package `domain` (gateway): the chunk queue -/

/-- The `ChunkQueue` struct: the linked list of queued chunks (head to
tail), the element count, the configured capacity (default 8), and the
buffered notification channel contents. -/
structure ChunkQueue where
  chunks : List Chunk
  count : Nat
  capacity : Nat
  notifications : List Nat
deriving DecidableEq, Repr

/-- `PushRequest`: reject with `accepted = 0` when the queue is full,
leaving it untouched; otherwise append the chunk built from the request
data (everything after the 2-byte length prefix), bump the count, push a
notification and accept. -/
def PushRequest (q : ChunkQueue) (request : Msg) : ChunkQueue × Msg :=
  if q.count = q.capacity then (q, CreateWriteChunkResponse false)
  else
    ({ q with
        chunks := q.chunks ++ [CreateChunk (request.data.drop 2)]
        count := q.count + 1
        notifications := q.notifications ++ [1] },
      CreateWriteChunkResponse true)

/-- `PopChunks`: atomically hand back the whole chunk list in arrival order
and leave the queue empty. -/
def PopChunks (q : ChunkQueue) : ChunkQueue × List Chunk :=
  ({ q with chunks := [], count := 0 }, q.chunks)

/-! ## General lemmas about the byte-level encodings -/

theorem fromLE_toLE (k n : Nat) : fromLE (toLE k n) = n % 256 ^ k := by
  induction k generalizing n with
  | zero => simp [toLE, fromLE, Nat.mod_one]
  | succ k ih =>
      have hstep : toLE (k + 1) n = n % 256 :: toLE k (n / 256) := by
        simp only [toLE, List.range_succ_eq_map, List.map_cons, List.map_map,
          pow_zero, Nat.div_one]
        congr 1
        apply List.map_congr_left
        intro i _
        simp only [Function.comp_apply]
        rw [Nat.div_div_eq_div_mul, pow_succ, mul_comm (256 ^ i) 256]
      rw [hstep]
      simp only [fromLE, List.foldr_cons]
      have hf : (toLE k (n / 256)).foldr (fun b acc => acc * 256 + b) 0 =
          fromLE (toLE k (n / 256)) := rfl
      rw [hf, ih]
      have hp : (256 : Nat) ^ (k + 1) = 256 * 256 ^ k := by ring
      rw [hp, Nat.mod_mul]
      ring

theorem toArr32_length (src : List Nat) : (toArr32 src).length = 32 := by
  simp only [toArr32, List.length_append, List.length_take, List.length_replicate]
  omega

theorem sha_foldl_round_length (l : List (Nat × Nat)) (st : List Nat)
    (h : st.length = 8) : (l.foldl shaRound st).length = 8 := by
  induction l generalizing st with
  | nil => simpa using h
  | cons x xs ih =>
      simp only [List.foldl_cons]
      apply ih
      match st, h with
      | [a, b, c, d, e, f, g, hh], _ => rfl

theorem shaChunk_length (st c : List Nat) (h : st.length = 8) :
    (shaChunk st c).length = 8 := by
  simp only [shaChunk, List.length_map, List.length_zip,
    sha_foldl_round_length _ _ h, h, Nat.min_self]

theorem sha_foldl_chunk_length (cs : List (List Nat)) (st : List Nat)
    (h : st.length = 8) : (cs.foldl shaChunk st).length = 8 := by
  induction cs generalizing st with
  | nil => simpa using h
  | cons c cs ih =>
      simp only [List.foldl_cons]
      exact ih _ (shaChunk_length _ _ h)

theorem sha256_length (msg : List Nat) : (sha256 msg).length = 32 := by
  have h8 : ((chunks64 (shaPad msg)).foldl shaChunk shaH0).length = 8 :=
    sha_foldl_chunk_length _ _ rfl
  simp only [sha256]
  rw [List.length_flatMap]
  rw [List.map_congr_left (fun w _ => by
    show ([w / 2 ^ 24 % 256, w / 2 ^ 16 % 256, w / 2 ^ 8 % 256, w % 256]).length = 4
    rfl)]
  simp [h8, List.map_const]

theorem hashBytes_length (b : Block) (hh : b.hash.length = 32) :
    b.hashBytes.length = 32 := by
  unfold Block.hashBytes
  by_cases hd : b.bufferDirty
  · simp [hd, sha256_length]
  · simp [hd, hh]

/-- Parsing a framed clean block followed by any tail recovers the block and
leaves exactly the tail. -/
theorem ReadBlock_frame_append (b : Block) (tail : List Nat)
    (hclean : b.bufferDirty = false) (hh : b.hash.length = 32)
    (hlen : b.buffer.length < 2 ^ 32) :
    ReadBlock (b.bufferWithMetadata ++ tail) = (some b, none, tail) := by
  have hframe : b.bufferWithMetadata = toLE 4 b.buffer.length ++ b.hash ++ b.buffer := by
    simp [Block.bufferWithMetadata, Block.writeWithMetadata, Block.settleHash,
      Block.hashBytes, hclean]
  rw [hframe]
  have h4 : (toLE 4 b.buffer.length).length = 4 := toLE_length _ _
  unfold ReadBlock
  rw [List.append_assoc, List.append_assoc]
  rw [List.take_append_of_le_length (by omega), List.drop_append_of_le_length (by omega)]
  have hne4 : ¬ (toLE 4 b.buffer.length ++ (b.hash ++ (b.buffer ++ tail))).length < 4 := by
    simp only [List.length_append]
    omega
  simp only [hne4, if_false]
  rw [List.take_of_length_le (le_of_eq h4), List.drop_of_length_le (le_of_eq h4)]
  have hne32 : ¬ (b.hash ++ (b.buffer ++ tail)).length < 32 := by
    simp only [List.length_append]
    omega
  simp only [List.nil_append, hne32, if_false]
  rw [List.take_append_of_le_length hh.ge, List.drop_append_of_le_length hh.ge]
  rw [List.take_of_length_le hh.le, List.drop_of_length_le hh.le]
  have hbl : fromLE (toLE 4 b.buffer.length) = b.buffer.length := by
    rw [fromLE_toLE]
    exact Nat.mod_eq_of_lt (by simpa using hlen)
  simp only [List.nil_append, hbl]
  have hne : ¬ (b.buffer ++ tail).length < b.buffer.length := by
    simp only [List.length_append]
    omega
  simp only [hne, if_false]
  rw [List.take_append_of_le_length (le_refl _), List.drop_append_of_le_length (le_refl _)]
  rw [List.take_of_length_le (le_refl _), List.drop_of_length_le (le_refl _)]
  simp only [List.nil_append, Prod.mk.injEq, and_true]
  congr 1
  unfold CreateBlockFromBuffer Big32.fromSlice
  cases b with
  | mk bh bb bd =>
      simp only at hclean hh ⊢
      subst hclean
      simp only [Block.mk.injEq]
      refine ⟨?_, List.take_of_length_le (le_refl _), trivial⟩
      rw [List.take_of_length_le hh.le]
      exact toArr32_of_length _ hh

theorem beBytesAux_length_le :
    ∀ (f n k : Nat), n ≤ f → ((beBytesAux f n).length ≤ k ↔ n < 256 ^ k) := by
  intro f
  induction f with
  | zero =>
      intro n k hn
      have h0 : n = 0 := by omega
      subst h0
      have hb : beBytesAux 0 0 = [] := rfl
      rw [hb]
      simp only [List.length_nil]
      constructor
      · intro _
        positivity
      · intro _
        exact Nat.zero_le k
  | succ f ih =>
      intro n k hn
      by_cases h0 : n = 0
      · subst h0
        have hb : beBytesAux (f + 1) 0 = [] := by simp [beBytesAux]
        rw [hb]
        simp only [List.length_nil]
        constructor
        · intro _
          positivity
        · intro _
          exact Nat.zero_le k
      · have hb : beBytesAux (f + 1) n = beBytesAux f (n / 256) ++ [n % 256] := by
          simp [beBytesAux, h0]
        rw [hb]
        simp only [List.length_append, List.length_cons, List.length_nil]
        cases k with
        | zero =>
            simp only [pow_zero]
            omega
        | succ k =>
            have hlt : n / 256 < n := Nat.div_lt_self (Nat.pos_of_ne_zero h0)
              (by norm_num)
            have hdiv : n / 256 ≤ f := by omega
            have hih := ih (n / 256) k hdiv
            have hiff : n / 256 < 256 ^ k ↔ n < 256 ^ (k + 1) := by
              rw [Nat.div_lt_iff_lt_mul (by norm_num : (0 : Nat) < 256), pow_succ]
            omega

theorem beBytes_length_le (n k : Nat) : (beBytes n).length ≤ k ↔ n < 256 ^ k :=
  beBytesAux_length_le n n k (le_refl n)

/-- `FromBig` panics (returns `none`) exactly on the values that need more
than 32 bytes, i.e. the values at least `2 ^ 256`. -/
theorem fromBig_eq_none_iff (v : Int) (hv : 0 ≤ v) :
    Big32.fromBig v = none ↔ 2 ^ 256 ≤ v := by
  unfold Big32.fromBig
  by_cases h0 : v = 0
  · subst h0
    simp
  · simp only [h0, if_false]
    have hgt : ¬ (32 : Nat) < 32 := by omega
    have h256 : (256 : Nat) ^ 32 = 2 ^ 256 := by norm_num
    constructor
    · intro h
      by_cases hlen : (beBytes v.natAbs).length > 32
      · have := (beBytes_length_le v.natAbs 32).not.mp (by omega)
        push_neg at this
        rw [h256] at this
        have : (2 : Int) ^ 256 ≤ (v.natAbs : Int) := by exact_mod_cast this
        rwa [Int.natAbs_of_nonneg hv] at this
      · simp [hlen] at h
    · intro h
      have hn : (2 : Nat) ^ 256 ≤ v.natAbs := by
        have : ((2 : Nat) ^ 256 : Int) ≤ v.natAbs := by
          rw [Int.natAbs_of_nonneg hv]
          exact_mod_cast h
        exact_mod_cast this
      have hlen : ¬ (beBytes v.natAbs).length ≤ 32 := by
        rw [beBytes_length_le, h256]
        omega
      simp [show (beBytes v.natAbs).length > 32 by omega]

theorem bufferWithMetadata_length (b : Block) (hclean : b.bufferDirty = false)
    (hh : b.hash.length = 32) :
    b.bufferWithMetadata.length = 36 + b.buffer.length := by
  simp only [Block.bufferWithMetadata, Block.writeWithMetadata, Block.settleHash,
    Block.hashBytes, hclean, Bool.false_eq_true, if_false, List.length_append,
    toLE_length, hh]

/-- Well-formedness of a block as produced by the constructors: the hash
array is 32 bytes, the hash is settled, and the buffer fits a `uint32`. -/
def WfClean (b : Block) : Prop :=
  b.bufferDirty = false ∧ b.hash.length = 32 ∧ b.buffer.length < 2 ^ 32

instance (b : Block) : Decidable (WfClean b) := by
  unfold WfClean
  infer_instance

theorem readLoopMinuteAux_frames (bucket : Int × Int × Int × Int × Int) :
    ∀ (bs : List Block) (fuel : Nat), (∀ b ∈ bs, WfClean b) →
      (bs.flatMap Block.bufferWithMetadata).length < fuel →
      readLoopMinuteAux bucket fuel (bs.flatMap Block.bufferWithMetadata) =
        .ok (bs.filter (fun b => decide (minuteTuple b.timestamp = bucket))) := by
  intro bs
  induction bs with
  | nil =>
      intro fuel _ hfuel
      simp only [List.flatMap_nil] at hfuel ⊢
      cases fuel with
      | zero => omega
      | succ f =>
          have hrb : ReadBlock [] = (none, some .eof, []) := rfl
          simp [readLoopMinuteAux, hrb]
  | cons b bs ih =>
      intro fuel hwf hfuel
      have hwb : WfClean b := hwf b (by simp)
      simp only [List.flatMap_cons] at hfuel ⊢
      cases fuel with
      | zero => omega
      | succ f =>
          have hrb := ReadBlock_frame_append b (bs.flatMap Block.bufferWithMetadata)
            hwb.1 hwb.2.1 hwb.2.2
          have hflen := bufferWithMetadata_length b hwb.1 hwb.2.1
          simp only [List.length_append] at hfuel
          have hrest : (bs.flatMap Block.bufferWithMetadata).length < f := by omega
          have hrec := ih f (fun x hx => hwf x (by simp [hx])) hrest
          simp only [readLoopMinuteAux, hrb, hrec, List.filter_cons]
          by_cases hm : minuteTuple b.timestamp = bucket
          · simp [hm, Except.map]
          · simp [hm, Except.map]

/-! ## Characterizations of the `WriteBlock` save path -/

/-- The four admission conditions checked across `Blockchain.WriteBlock` and
`BlockRepository.validateBlock`: recorded difficulty equals the live
difficulty, the hash is valid at the recorded difficulty, the previous hash
matches the head, and the timestamp is not older than the head. -/
def validationOk (st : Chain) (b : Block) : Bool :=
  Big32.equals st.repo.previousBlockHash b.previousHash &&
  decide (st.repo.previousBlockTimestamp ≤ b.timestamp) &&
  Big32.equals b.difficulty st.currentDifficulty &&
  isHashValidForDifficulty b

theorem writeBlock_fail_difficulty (st : Chain) (b : Block) (t : Int)
    (h1 : Big32.equals b.difficulty st.currentDifficulty = false) :
    WriteBlock st b t = (st, some (.errNew ("unexpected difficulty"))) := by
  unfold WriteBlock
  simp [h1]

theorem writeBlock_fail_hash (st : Chain) (b : Block) (t : Int)
    (h1 : Big32.equals b.difficulty st.currentDifficulty = true)
    (h2 : isHashValidForDifficulty b = false) :
    WriteBlock st b t =
      (st, some (.errNew ("unexpected hash value for the given difficulty"))) := by
  unfold WriteBlock
  simp [h1, h2]

theorem writeBlock_fail_prevHash (st : Chain) (b : Block) (t : Int)
    (h1 : Big32.equals b.difficulty st.currentDifficulty = true)
    (h2 : isHashValidForDifficulty b = true)
    (h3 : Big32.equals st.repo.previousBlockHash b.previousHash = false) :
    WriteBlock st b t =
      (st, some (.errNew ("the given block does not have the current previous hash"))) := by
  unfold WriteBlock Save validateBlock
  simp [h1, h2, h3]

theorem writeBlock_fail_timestamp (st : Chain) (b : Block) (t : Int)
    (h1 : Big32.equals b.difficulty st.currentDifficulty = true)
    (h2 : isHashValidForDifficulty b = true)
    (h3 : Big32.equals st.repo.previousBlockHash b.previousHash = true)
    (h4 : b.timestamp < st.repo.previousBlockTimestamp) :
    WriteBlock st b t =
      (st, some (.errNew ("the given block is older than the last created block"))) := by
  unfold WriteBlock Save validateBlock
  simp [h1, h2, h3, h4]

theorem writeBlock_ok_currentDifficulty (st : Chain) (b : Block) (t : Int)
    (h : (WriteBlock st b t).2 = none) :
    some ((WriteBlock st b t).1.currentDifficulty) =
      computeDifficulty st.minedCount b.difficulty (t - st.lastWrite) := by
  by_cases h1 : Big32.equals b.difficulty st.currentDifficulty
  · by_cases h2 : isHashValidForDifficulty b
    · unfold WriteBlock at h ⊢
      simp only [h1, h2, not_true_eq_false, if_false, Bool.true_eq_false] at h ⊢
      rcases hnd : computeDifficulty st.minedCount b.difficulty (t - st.lastWrite) with _ | v
      · exfalso
        unfold Save at h
        rcases hval : validateBlock st.repo b with _ | e
        · simp only [hval, hnd] at h
          exact Option.noConfusion h
        · simp only [hval, hnd] at h
          exact Option.noConfusion h
      · unfold Save at h ⊢
        rcases hval : validateBlock st.repo b with _ | e
        · simp only [hval, hnd] at h ⊢
          simp
        · simp only [hval, hnd] at h
          exact absurd h (by simp)
    · exfalso
      rw [writeBlock_fail_hash st b t (by simpa using h1) (by simpa using h2)] at h
      exact Option.noConfusion h
  · exfalso
    rw [writeBlock_fail_difficulty st b t (by simpa using h1)] at h
    exact Option.noConfusion h

/-! ## Concrete data for the witnesses -/

/-- A concrete clean block extending the boot head: previous hash zero,
nonce zero, timestamp 0, no entries, difficulty one. -/
def demoBlock : Block :=
  { hash := List.replicate 31 0 ++ [9]
    buffer := List.replicate 73 0 ++ (List.replicate 31 0 ++ [1])
    bufferDirty := false }

/-- A clean block one hour later in the same format (timestamp 3600). -/
def lateBlock : Block :=
  { hash := List.replicate 32 3
    buffer := List.replicate 64 0 ++ toLE 8 3600 ++ [0] ++
      (List.replicate 31 0 ++ [1])
    bufferDirty := false }

/-- A clean block whose recorded difficulty (2) differs from the boot
difficulty (1). -/
def badDifficultyBlock : Block :=
  { hash := List.replicate 31 0 ++ [9]
    buffer := List.replicate 73 0 ++ (List.replicate 31 0 ++ [2])
    bufferDirty := false }

/-- The boot state of the ledger host: zero head hash, difficulty one,
empty store, mined count 0. -/
def bootChain : Chain :=
  { repo := { previousBlockHash := Big32.zero
              previousBlockDifficulty := Big32.one
              previousBlockTimestamp := 0
              fs := [] }
    currentDifficulty := Big32.one
    lastWrite := 0
    minedCount := 0 }

/-- The difficulty value `2 ^ 255`, for exercising the overflow path. -/
def hugeDifficulty : Big32 := ⟨128 :: List.replicate 31 0⟩

/-! ## The claims -/

/-- C1: a block submitted to `Blockchain.WriteBlock` (delegating to
`BlockRepository.Save`) is accepted only if all four admission conditions
hold — previous-hash match, timestamp monotonicity, difficulty match, and
hash validity at the recorded difficulty; when any of them fails the save
returns an invalid-block error and leaves the state (in particular the file
store) unchanged. -/
theorem writeBlock_validation_gate (st : Chain) (b : Block) (t : Int) :
    ((WriteBlock st b t).2 = none → validationOk st b = true) ∧
    (validationOk st b = false →
      (WriteBlock st b t).1 = st ∧
      ∃ m, (WriteBlock st b t).2 = some (GoErr.errNew m) ∧
        m ∈ ["unexpected difficulty",
             "unexpected hash value for the given difficulty",
             "the given block does not have the current previous hash",
             "the given block is older than the last created block"]) := by
  by_cases h1 : Big32.equals b.difficulty st.currentDifficulty
  · by_cases h2 : isHashValidForDifficulty b
    · by_cases h3 : Big32.equals st.repo.previousBlockHash b.previousHash
      · by_cases h4 : st.repo.previousBlockTimestamp ≤ b.timestamp
        · constructor
          · intro _
            simp [validationOk, h1, h2, h3, h4]
          · intro hv
            exfalso
            simp [validationOk, h1, h2, h3, h4] at hv
        · have hfail := writeBlock_fail_timestamp st b t (by simpa using h1)
            (by simpa using h2) (by simpa using h3) (by omega)
          constructor
          · intro h
            rw [hfail] at h
            exact absurd h (by simp)
          · intro _
            rw [hfail]
            exact ⟨rfl, "the given block is older than the last created block",
              rfl, by simp⟩
      · have hfail := writeBlock_fail_prevHash st b t (by simpa using h1)
          (by simpa using h2) (by simpa using h3)
        constructor
        · intro h
          rw [hfail] at h
          exact absurd h (by simp)
        · intro _
          rw [hfail]
          exact ⟨rfl, "the given block does not have the current previous hash",
            rfl, by simp⟩
    · have hfail := writeBlock_fail_hash st b t (by simpa using h1)
        (by simpa using h2)
      constructor
      · intro h
        rw [hfail] at h
        exact absurd h (by simp)
      · intro _
        rw [hfail]
        exact ⟨rfl, "unexpected hash value for the given difficulty", rfl, by simp⟩
  · have hfail := writeBlock_fail_difficulty st b t (by simpa using h1)
    constructor
    · intro h
      rw [hfail] at h
      exact absurd h (by simp)
    · intro _
      rw [hfail]
      exact ⟨rfl, "unexpected difficulty", rfl, by simp⟩

/-- Witness for C1: at the boot state, a block with a wrong recorded
difficulty is rejected with an invalid-block error and the state is
unchanged. -/
theorem writeBlock_validation_gate_witness :
    (WriteBlock bootChain badDifficultyBlock 5).1 = bootChain ∧
    ∃ m, (WriteBlock bootChain badDifficultyBlock 5).2 = some (GoErr.errNew m) ∧
      m ∈ ["unexpected difficulty",
           "unexpected hash value for the given difficulty",
           "the given block does not have the current previous hash",
           "the given block is older than the last created block"] :=
  (writeBlock_validation_gate bootChain badDifficultyBlock 5).2 (by decide)

/-- C2 counterexample: from the boot state (mined count 0), the very first
accepted block already triggers a difficulty recomputation — the difficulty
after the first save (here `⌊1 × 3072 / 2⌋ = 1536`) differs from the block's
recorded difficulty, contradicting the claim that after the first mined
block the difficulty is unchanged. -/
theorem writeBlock_first_block_changes_difficulty :
    (WriteBlock bootChain demoBlock 2).2 = none ∧
    (WriteBlock bootChain demoBlock 2).1.currentDifficulty ≠ demoBlock.difficulty ∧
    Big32.equals (WriteBlock bootChain demoBlock 2).1.currentDifficulty
      demoBlock.difficulty = false := by
  refine ⟨by decide, by decide, by decide⟩

/-- C2 (amended): on each successful save the difficulty callback runs with
the pre-increment mined count (0 on the very first block, so the first,
257th, 513th… block recomputes).  When `minedCount % 256 ≠ 0` the difficulty
is the block's recorded difficulty unchanged; when `minedCount % 256 = 0`
it is `⌊difficulty × (12 × 256) / Δs⌋` with `Δs = max(elapsed, 1)` as
computed through `Big32.fromBig`. -/
theorem writeBlock_difficulty_update (st : Chain) (b : Block) (t : Int)
    (h : (WriteBlock st b t).2 = none) :
    (st.minedCount % 256 ≠ 0 →
      (WriteBlock st b t).1.currentDifficulty = b.difficulty) ∧
    (st.minedCount % 256 = 0 →
      some ((WriteBlock st b t).1.currentDifficulty) =
        Big32.fromBig (Int.ediv ((Big32.toBig b.difficulty : Int) * (12 * 256))
          (if t - st.lastWrite = 0 then 1 else t - st.lastWrite))) := by
  have hcd := writeBlock_ok_currentDifficulty st b t h
  constructor
  · intro hmod
    rw [show computeDifficulty st.minedCount b.difficulty (t - st.lastWrite) =
      some b.difficulty by simp [computeDifficulty, hmod]] at hcd
    exact Option.some.inj hcd
  · intro hmod
    rw [hcd]
    simp [computeDifficulty, hmod]

/-- Witness for C2 (amended): the concrete first save from the boot state
with Δs = 2 produces difficulty `⌊3072 / 2⌋ = 1536`. -/
theorem writeBlock_difficulty_update_witness :
    some ((WriteBlock bootChain demoBlock 2).1.currentDifficulty) =
      Big32.fromBig (Int.ediv ((Big32.toBig demoBlock.difficulty : Int) * (12 * 256))
        (if (2 : Int) - bootChain.lastWrite = 0 then 1 else 2 - bootChain.lastWrite)) :=
  (writeBlock_difficulty_update bootChain demoBlock 2 (by decide)).2 (by decide)

/-- C3 counterexample: at a 256-boundary call (mined count 0) with previous
difficulty `2 ^ 255` and Δs = 1, the computed value `2 ^ 255 × 3072` needs
more than 32 bytes and `FromBig` panics with a slice-bounds error (modelled
as `none`) instead of clamping to `2 ^ 256 − 1`; `FromBig` itself already
fails at `2 ^ 256`. -/
theorem computeDifficulty_panics_on_overflow :
    computeDifficulty 0 hugeDifficulty 1 = none ∧
    Big32.fromBig (2 ^ 256) = none := by
  refine ⟨by decide, by decide⟩

/-- C3 (amended): `FromBig` is total only below `2 ^ 256`: for nonnegative
values it returns `none` (a Go slice-bounds panic) exactly on values
`≥ 2 ^ 256`, and the boundary difficulty update is `FromBig` applied to
`⌊difficulty × 3072 / Δs⌋`, so the update panics rather than clamping
whenever that quotient reaches `2 ^ 256`. -/
theorem fromBig_partiality (d : Big32) (delta v : Int) (hv : 0 ≤ v) :
    (Big32.fromBig v = none ↔ 2 ^ 256 ≤ v) ∧
    computeDifficulty 0 d delta =
      Big32.fromBig (Int.ediv ((Big32.toBig d : Int) * (12 * 256))
        (if delta = 0 then 1 else delta)) := by
  refine ⟨fromBig_eq_none_iff v hv, ?_⟩
  simp [computeDifficulty]

/-- Witness for C3 (amended): `FromBig (2 ^ 256)` panics. -/
theorem fromBig_partiality_witness : Big32.fromBig ((2 : Int) ^ 256) = none :=
  (fromBig_partiality Big32.one 1 ((2 : Int) ^ 256) (by norm_num)).1.mpr (by norm_num)

/-- C4 counterexample: with an empty store, looking up any hash with first
byte 0 fails with the `os.OpenFile` error for the absent index file instead
of returning a nil block without error. -/
theorem getOneWithHash_absent_index_is_error :
    GetOneWithHash bootChain.repo Big32.zero = .error (.enoent ("index-0")) := by
  decide

/-- C4 (amended): `GetOneWithHash` opens both files through
`HandleFileAtomically`, which passes no not-found callback, so the absence
of the hash-index file — or of the block file named by the matching index
entry — surfaces as an open error; a nil block with no error is produced
only when the index file exists but its scan finds no entry for the
hash. -/
theorem getOneWithHash_absence (repo : Repo) (h : Big32) :
    (fsGet repo.fs (getIndexPathForHash h) = none →
      GetOneWithHash repo h = .error (.enoent (getIndexPathForHash h))) ∧
    (∀ content pos fnameBytes,
      fsGet repo.fs (getIndexPathForHash h) = some content →
      scanIndex h content = some (pos, fnameBytes) →
      fsGet repo.fs (strOfBytes fnameBytes) = none →
      GetOneWithHash repo h = .error (.enoent (strOfBytes fnameBytes))) ∧
    (∀ content,
      fsGet repo.fs (getIndexPathForHash h) = some content →
      scanIndex h content = none →
      GetOneWithHash repo h = .ok none) := by
  refine ⟨?_, ?_, ?_⟩
  · intro hidx
    unfold GetOneWithHash
    simp [hidx]
  · intro content pos fnameBytes hidx hscan hblk
    unfold GetOneWithHash
    simp [hidx, hscan, hblk]
  · intro content hidx hscan
    unfold GetOneWithHash
    simp [hidx, hscan]

/-- Witness for C4 (amended): the boot store has no index files, so the
lookup of the zero hash errors on `index-0`. -/
theorem getOneWithHash_absence_witness :
    GetOneWithHash bootChain.repo Big32.zero =
      .error (.enoent (getIndexPathForHash Big32.zero)) :=
  (getOneWithHash_absence bootChain.repo Big32.zero).1 (by decide)

/-- C5: encoding a `ReadBlocksInMinute` request (opcode 0x04) and decoding
it back yields a message whose opcode field is 0, not 0x04 —
`handleReadBlocksInMinute` never assigns the opcode of the freshly
allocated request, so the round-trip loses the opcode (and the ledger
host's dispatch, which switches on `Opcode()`, can never see 0x04). -/
theorem readBlocksInMinute_decode_loses_opcode :
    (CreateReadBlocksInMinute 0).opcode = 4 ∧
    ReadMessage (msgWrite (CreateReadBlocksInMinute 0)) =
      .ok (⟨0, 8, toLE 8 0, none⟩, []) := by
  refine ⟨rfl, by decide⟩

/-- C6 counterexample: building from the empty (nil) chunk sequence fails
with an error, and building from 256 chunks does not fail — it returns a
block whose `uint8` entry counter has wrapped to 0. -/
theorem createBlock_boundary_counterexample :
    CreateBlock Big32.zero Big32.one [] 0 =
      .error (.errNew ("entries cannot be nil")) ∧
    ((CreateBlock Big32.zero Big32.one
        (List.replicate 256 (CreateChunk [65])) 0).toOption.map Block.entryCount) =
      some 0 := by
  refine ⟨by decide, by decide⟩

/-- C6 (amended): `CreateBlock` fails on the empty (nil) chunk sequence and
succeeds on every nonempty one whose chunks carry at least as many data
bytes as their recorded length (as all `CreateChunk`-built chunks do; Go
would panic slicing a shorter chunk), recording `entry_count` as the chunk
count modulo 256 — so 1 through 255 chunks record their exact count, while
256 chunks build successfully with a wrapped count of 0. -/
theorem createBlock_entry_count (prev diff : Big32) (entries : List Chunk)
    (now : Int)
    (hwf : ∀ c ∈ entries, c.length ≤ c.data.length) :
    (entries = [] →
      CreateBlock prev diff entries now = .error (.errNew ("entries cannot be nil"))) ∧
    (entries ≠ [] → ∃ b, CreateBlock prev diff entries now = .ok b ∧
      b.entryCount = entries.length % 256) := by
  constructor
  · intro h
    simp [CreateBlock, h]
  · intro h
    have hres : CreateBlock prev diff entries now = .ok
        { hash := List.replicate 32 0
          buffer := toArr32 prev.bytes ++ List.replicate 32 0 ++ toLE 8 (u64 now) ++
            [entries.length % 256] ++ toArr32 diff.bytes ++
            entries.flatMap (fun c => toLE 2 c.length ++ c.data.take c.length)
          bufferDirty := true } := by
      simp [CreateBlock, h]
    refine ⟨_, hres, ?_⟩
    unfold Block.entryCount
    simp only
    have h72 : (toArr32 prev.bytes ++ List.replicate 32 0 ++
        toLE 8 (u64 now)).length = 72 := by
      simp [toArr32_length, toLE_length]
    rw [List.append_assoc (toArr32 prev.bytes ++ List.replicate 32 0 ++ toLE 8 (u64 now)),
      List.append_assoc (toArr32 prev.bytes ++ List.replicate 32 0 ++ toLE 8 (u64 now))]
    rw [List.getD_append_right _ _ _ _ (by omega)]
    simp [toArr32_length, toLE_length]

/-- Witness for C6 (amended): 255 chunks record `entry_count = 255`, and the
empty sequence fails. -/
theorem createBlock_entry_count_witness :
    (CreateBlock Big32.zero Big32.one [] 7 =
      .error (.errNew ("entries cannot be nil"))) ∧
    ∃ b, CreateBlock Big32.zero Big32.one
        (List.replicate 255 (CreateChunk [66])) 7 = .ok b ∧
      b.entryCount = (List.replicate 255 (CreateChunk [66])).length % 256 :=
  ⟨(createBlock_entry_count Big32.zero Big32.one [] 7 (by decide)).1 rfl,
   (createBlock_entry_count Big32.zero Big32.one
      (List.replicate 255 (CreateChunk [66])) 7 (by decide)).2 (by decide)⟩

/-- C7: writing a block in the block-with-metadata framing and parsing the
bytes back yields the block byte-for-byte: the parsed block is the written
block (with its hash settled by the embedded `Hash` call), its payload
buffer is identical, and its 32-byte hash equals the block's hash. -/
theorem writeWithMetadata_roundtrip (b : Block) (hh : b.hash.length = 32)
    (hlen : b.buffer.length < 2 ^ 32) :
    ReadBlock (b.writeWithMetadata).1 = (some b.settleHash, none, []) ∧
    b.settleHash.buffer = b.buffer ∧
    b.settleHash.hashBig = b.hashBig := by
  have hh2 : b.settleHash.hash.length = 32 := hashBytes_length b hh
  have hread := ReadBlock_frame_append b.settleHash [] rfl hh2 hlen
  rw [List.append_nil] at hread
  exact ⟨hread, rfl, rfl⟩

/-- Witness for C7: the concrete framed round-trip of `demoBlock`. -/
theorem writeWithMetadata_roundtrip_witness :
    ReadBlock (demoBlock.writeWithMetadata).1 =
      (some demoBlock.settleHash, none, []) ∧
    demoBlock.settleHash.buffer = demoBlock.buffer ∧
    demoBlock.settleHash.hashBig = demoBlock.hashBig :=
  writeWithMetadata_roundtrip demoBlock (by decide) (by decide)

/-- C8: when no by-minute file exists for the timestamp's minute the query
returns the empty list without error; when the file holds a sequence of
framed blocks, the query returns, in file order, exactly those whose
decoded timestamp falls in the same (year, month, day, hour, minute) UTC
bucket as the requested timestamp. -/
theorem getBlocksFromMinute_spec (repo : Repo) (t : Int) (bs : List Block)
    (hwf : ∀ b ∈ bs, WfClean b) :
    (fsGet repo.fs (getFilenameForTime t) = none →
      GetBlocksFromMinute repo t = .ok []) ∧
    (fsGet repo.fs (getFilenameForTime t) =
        some (bs.flatMap Block.bufferWithMetadata) →
      GetBlocksFromMinute repo t =
        .ok (bs.filter (fun b => decide (minuteTuple b.timestamp = minuteTuple t)))) := by
  constructor
  · intro hnone
    unfold GetBlocksFromMinute
    simp [hnone]
  · intro hsome
    unfold GetBlocksFromMinute
    simp only [hsome]
    unfold readLoopMinute
    exact readLoopMinuteAux_frames (minuteTuple t) bs _ hwf (Nat.lt_succ_self _)

/-- A store holding one by-minute file with two framed blocks, only the
first of which (timestamp 0) belongs to minute (1970,1,1,0,0). -/
def minuteRepo : Repo :=
  { previousBlockHash := Big32.zero
    previousBlockDifficulty := Big32.one
    previousBlockTimestamp := 0
    fs := [("blockchain-1970-1-1-0-0",
      ([demoBlock, lateBlock].flatMap Block.bufferWithMetadata))] }

/-- Witness for C8: querying second 30 of the stored minute returns exactly
the block of that minute; the block one hour later is filtered out, and an
unrelated minute returns the empty list. -/
theorem getBlocksFromMinute_spec_witness :
    GetBlocksFromMinute minuteRepo 30 = .ok [demoBlock] ∧
    GetBlocksFromMinute minuteRepo 9000 = .ok [] := by
  constructor
  · have h := (getBlocksFromMinute_spec minuteRepo 30 [demoBlock, lateBlock]
      (by decide)).2 (by decide)
    rw [h]
    decide
  · exact (getBlocksFromMinute_spec minuteRepo 9000 [] (by simp)).1 (by decide)

/-- C9: the chunk queue ops preserve the count/capacity invariant; a push
at capacity is rejected without any mutation; a successful push appends the
chunk at the tail (FIFO) and increments the count; `PopChunks` drains the
whole list in arrival order leaving the queue empty, and on an empty queue
it returns the empty sequence. -/
theorem chunkQueue_ops (q : ChunkQueue) (m : Msg)
    (hwf : q.count = q.chunks.length ∧ q.count ≤ q.capacity) :
    ((PushRequest q m).1.count = (PushRequest q m).1.chunks.length ∧
     (PushRequest q m).1.count ≤ (PushRequest q m).1.capacity ∧
     (PushRequest q m).1.capacity = q.capacity) ∧
    ((PopChunks q).1.count = (PopChunks q).1.chunks.length ∧
     (PopChunks q).1.count ≤ (PopChunks q).1.capacity ∧
     (PopChunks q).1.capacity = q.capacity) ∧
    (q.count = q.capacity → PushRequest q m = (q, CreateWriteChunkResponse false)) ∧
    (q.count ≠ q.capacity →
      (PushRequest q m).1.chunks = q.chunks ++ [CreateChunk (m.data.drop 2)] ∧
      (PushRequest q m).1.count = q.count + 1 ∧
      (PushRequest q m).2 = CreateWriteChunkResponse true) ∧
    (PopChunks q).2 = q.chunks ∧
    (PopChunks q).1.chunks = [] ∧
    (PopChunks q).1.count = 0 ∧
    (q.chunks = [] → (PopChunks q).2 = []) := by
  obtain ⟨hlen, hcap⟩ := hwf
  by_cases hfull : q.count = q.capacity
  · refine ⟨⟨?_, ?_, ?_⟩, ⟨rfl, Nat.zero_le _, rfl⟩,
      fun _ => ?_, fun hne => absurd hfull hne, rfl, rfl, rfl, fun hq => hq⟩
    · simpa [PushRequest, hfull] using hlen
    · simpa [PushRequest, hfull] using hcap
    · simp [PushRequest, hfull]
    · simp [PushRequest, hfull]
  · refine ⟨⟨?_, ?_, ?_⟩, ⟨rfl, Nat.zero_le _, rfl⟩,
      fun hc => absurd hc hfull,
      fun _ => ⟨by simp [PushRequest, hfull], by simp [PushRequest, hfull],
        by simp [PushRequest, hfull]⟩,
      rfl, rfl, rfl, fun hq => hq⟩
    · simp [PushRequest, hfull]
      omega
    · simp [PushRequest, hfull]
      omega
    · simp [PushRequest, hfull]

/-- A full queue at the default capacity 8. -/
def fullQueue : ChunkQueue :=
  ⟨List.replicate 8 (CreateChunk [1]), 8, 8, List.replicate 8 1⟩

/-- Witness for C9: pushing into the full default-capacity queue is
rejected without mutation, and draining returns all eight chunks. -/
theorem chunkQueue_ops_witness :
    PushRequest fullQueue (CreateWriteChunk [2] 1) =
      (fullQueue, CreateWriteChunkResponse false) ∧
    (PopChunks fullQueue).2 = fullQueue.chunks :=
  ⟨(chunkQueue_ops fullQueue (CreateWriteChunk [2] 1) (by decide)).2.2.1 (by decide),
   (chunkQueue_ops fullQueue (CreateWriteChunk [2] 1) (by decide)).2.2.2.2.1⟩

/-- C10: parsing a framed block never verifies the framed hash against the
payload: for every payload and every 32-byte hash field — including ones
that are not the SHA-256 of the payload — the parse succeeds, the block is
marked clean at construction, and `Hash` returns the framed bytes
verbatim. -/
theorem readBlock_keeps_framed_hash (payload h : List Nat) (hh : h.length = 32)
    (hlen : payload.length < 2 ^ 32) :
    ReadBlock (toLE 4 payload.length ++ h ++ payload) =
      (some ⟨h, payload, false⟩, none, []) ∧
    Block.hashBig ⟨h, payload, false⟩ = ⟨h⟩ := by
  have hread := ReadBlock_frame_append ⟨h, payload, false⟩ [] rfl hh hlen
  rw [List.append_nil] at hread
  refine ⟨hread, ?_⟩
  simp [Block.hashBig, Block.hashBytes, Big32.fromBytes, toArr32_of_length _ hh]

/-- Witness for C10: a framed block whose hash field is 32 bytes of 7 — not
the SHA-256 of its payload — parses without error and reports those bytes
as its hash. -/
theorem readBlock_keeps_framed_hash_witness :
    ReadBlock (toLE 4 ([1, 2, 3] : List Nat).length ++ List.replicate 32 7 ++ [1, 2, 3]) =
      (some ⟨List.replicate 32 7, [1, 2, 3], false⟩, none, []) ∧
    Block.hashBig ⟨List.replicate 32 7, [1, 2, 3], false⟩ = ⟨List.replicate 32 7⟩ :=
  readBlock_keeps_framed_hash [1, 2, 3] (List.replicate 32 7) (by decide) (by decide)

end Distros
